import Mathlib

/-!
Verification development for the Eternal Memory repository.

The repository couples a TypeScript UI (src/ui) with a memory backend whose
design is recorded in the repository documents (notably the memory
specification containing the `ConsolidatePipeline.execute` and
`_assign_category` code). The UI chat-session store (zustand) is embedded
directly from its TypeScript source. Backend pipeline operations whose
Python bodies are not part of the repository snapshot are modelled from the
specification's words; each such definition carries a doc comment starting
with `Modelled from the spec:`.

Numbers: scores, similarities and decay factors are modelled over ℚ;
timestamps are hours since an arbitrary epoch, modelled as ℕ.
-/

namespace EternalMemory

/-- Semantic kind of a memory item (`MemoryType` enum: fact, preference,
event, plan). -/
inductive MemoryType where
  | fact
  | preference
  | event
  | plan
deriving DecidableEq, Repr

/-- An extracted fact (`MemoryItem` model / `memory_items` table): identifier,
content, owning category path, kind, importance and confidence in [0,1],
mention count, optional source resource, active flag with supersede link,
creation and last-access times (hours). -/
structure MemoryItem where
  id : Nat
  content : String
  categoryPath : String
  kind : MemoryType
  importance : ℚ
  confidence : ℚ
  mentionCount : Nat
  sourceResourceId : Option Nat
  active : Bool
  supersededBy : Option Nat
  createdAt : Nat
  lastAccessed : Nat
deriving DecidableEq, Repr

/-- A raw input record (`Resource` model / `resources` table). -/
structure Resource where
  id : Nat
  uri : String
  modality : String
  content : Option String
  createdAt : Nat
deriving DecidableEq, Repr

/-- A topic-hierarchy node (`Category` model / `categories` table): the path
is slash-delimited and unique; `parentId` records lineage. -/
structure Category where
  id : Nat
  name : String
  parentId : Option Nat
  summary : Option String
  path : String
  lastAccessed : Nat
deriving DecidableEq, Repr

/-- The fact store: resources, categories and memory items, plus a fresh-id
counter (the database allocates identifiers). -/
structure Store where
  resources : List Resource
  categories : List Category
  items : List MemoryItem
  nextId : Nat
deriving DecidableEq, Repr

/-- Identifiers of all stored memory items. -/
def itemIds (st : Store) : List Nat := st.items.map (fun i => i.id)

/-- Identifiers of all stored categories. -/
def categoryIds (st : Store) : List Nat := st.categories.map (fun c => c.id)

/-- Identifiers of all stored resources. -/
def resourceIds (st : Store) : List Nat := st.resources.map (fun r => r.id)

/-- Look a memory item up by identifier. -/
def findItem (st : Store) (i : Nat) : Option MemoryItem :=
  st.items.find? (fun it => it.id == i)

/-- Items belonging to a category path. -/
def itemsByPath (st : Store) (p : String) : List MemoryItem :=
  st.items.filter (fun it => it.categoryPath == p)

/-- Active (non-superseded) items of the store. -/
def activeItems (st : Store) : List MemoryItem :=
  st.items.filter (fun it => it.active)

/-! ## Recency scoring (claim C3)

The retrieval scoring implementation is not part of the repository snapshot;
the formula is recorded in the UI (DatabasePage scoring card:
`Recency = 0.995^(hours since last access)`) and the default
`recency_decay_factor` is 0.995 in the ScoringSection component. -/

/-- Modelled from the spec: recency score `decay^(hours since last access)`,
per the DatabasePage scoring card and spec §4.2. -/
def recencyScore (decay : ℚ) (hoursSinceAccess : Nat) : ℚ :=
  decay ^ hoursSinceAccess

/-- Default recency decay factor (ScoringSection default
`recency_decay_factor: 0.995`). -/
def defaultRecencyDecay : ℚ := 995 / 1000

end EternalMemory

namespace EternalMemory

/-! ## Ingestion pipeline (claims C2, C5, C7, C8)

The memorize pipeline's Python body is not part of the repository snapshot
(the repository documents record its structure: salience extraction,
`_assign_category`, supersede detection, commit, reinforcement). Operations
below are modelled from the spec accordingly. The completion/embedding
capabilities are pure function parameters. -/

/-- Outcome of the contradiction-judgment contract on two fact texts. -/
inductive Judgment where
  | supersede
  | equivalent
  | unrelated
deriving DecidableEq, Repr

/-- A candidate fact produced by the salience-extraction contract
(`EXTRACTION_PROMPT` output: content, type, category_path, importance). -/
structure CandidateFact where
  content : String
  kind : MemoryType
  categoryPath : String
  importance : ℚ
deriving DecidableEq, Repr

/-- Capability interfaces (completion/embedding service contracts) used by
the pipelines, modelled as pure functions. -/
structure Capabilities where
  extract : String → List CandidateFact
  judge : String → String → Judgment
  categorySim : String → Category → ℚ
  itemSim : String → String → ℚ
  suggestPath : String → String
  summarize : List MemoryItem → String
  suggestSubcategories : Category → List MemoryItem → List (String × List Nat)

/-- Configurable pipeline thresholds (category-similarity threshold default
0.7, staleness window 90 days, stale-queue bound 100, split bound ~50,
target cluster count 3). -/
structure PipelineConfig where
  categoryThreshold : ℚ
  contradictionThreshold : ℚ
  importanceBoost : ℚ
  staleDays : Nat
  staleQueueBound : Nat
  splitBound : Nat
  targetClusters : Nat
deriving DecidableEq, Repr

/-- Default pipeline configuration. -/
def defaultPipeline : PipelineConfig :=
  { categoryThreshold := mkRat 7 10
    contradictionThreshold := mkRat 1 2
    importanceBoost := mkRat 1 10
    staleDays := 90
    staleQueueBound := 100
    splitBound := 50
    targetClusters := 3 }

/-- Errors the ingestion pipeline reports without automatic retry. -/
inductive IngestError where
  | namingConflict
deriving DecidableEq, Repr

/-- Segments of a slash-delimited category path. -/
def pathParts (p : String) : List String :=
  (p.data.splitOn '/').map (fun cs => String.mk cs)

/-- Parent path of a slash-delimited category path (none at the root). -/
def parentPathOf (p : String) : Option String :=
  let parts := pathParts p
  if parts.length ≤ 1 then none
  else some (String.mk (List.intercalate ['/'] (parts.dropLast.map (fun s => s.data))))

/-- Final segment of a slash-delimited category path. -/
def lastSegment (p : String) : String :=
  match (pathParts p).getLast? with
  | some s => s
  | none => p

/-- Lineage a path would receive: the identifier of the category stored at
the path's parent prefix, if any. -/
def derivedParentId (st : Store) (p : String) : Option Nat :=
  match parentPathOf p with
  | none => none
  | some pp => (st.categories.find? (fun c => c.path == pp)).map (fun c => c.id)

/-- Modelled from the spec: `_ensure_category` — creating a category is
idempotent for an existing path with the same lineage, raises a distinct
naming-conflict error when the path exists with different lineage, and
otherwise inserts a fresh category at the path (path uniqueness per the
`categories` table `path TEXT NOT NULL UNIQUE`). -/
def ensureCategory (st : Store) (p : String) (parent : Option Nat) (now : Nat) :
    Except IngestError (Store × Category) :=
  match st.categories.find? (fun c => c.path == p) with
  | some c => if c.parentId = parent then .ok (st, c) else .error .namingConflict
  | none =>
      let c : Category :=
        { id := st.nextId, name := lastSegment p, parentId := parent
          summary := none, path := p, lastAccessed := now }
      .ok ({ st with categories := st.categories ++ [c], nextId := st.nextId + 1 }, c)

/-- Best existing category by vector similarity to the candidate content
(the `vector_search_categories(embedding, limit=1, ...)` query). -/
def bestCategory (caps : Capabilities) (st : Store) (content : String) :
    Option (Category × ℚ) :=
  st.categories.foldl
    (fun acc c =>
      match acc with
      | none => some (c, caps.categorySim content c)
      | some (b, s) =>
          let s' := caps.categorySim content c
          if s < s' then some (c, s') else some (b, s))
    none

/-- Modelled from the spec: `_assign_category` — if the best
existing-category similarity reaches the threshold, assign to it; otherwise
create a new category at the model-suggested path, raising a naming-conflict
error if the path already exists with different lineage. -/
def assignCategory (caps : Capabilities) (cfg : PipelineConfig) (now : Nat)
    (st : Store) (content : String) : Except IngestError (Store × String) :=
  let chosen :=
    match bestCategory caps st content with
    | some (c, s) => if cfg.categoryThreshold ≤ s then some c.path else none
    | none => none
  match chosen with
  | some p => .ok (st, p)
  | none =>
      let p := caps.suggestPath content
      match ensureCategory st p (derivedParentId st p) now with
      | .ok (st', c) => .ok (st', c.path)
      | .error e => .error e

/-- Modelled from the spec: supersede detection's store query — the first
active item of the target category whose content is semantically close to
the candidate (similarity above the contradiction-check threshold). -/
def findNear (caps : Capabilities) (cfg : PipelineConfig) (st : Store)
    (path content : String) : Option MemoryItem :=
  ((itemsByPath st path).filter (fun it => it.active)).find?
    (fun it => decide (cfg.contradictionThreshold ≤ caps.itemSim it.content content))

/-- The fresh MemoryItem a commit would write for a candidate fact. -/
def mkNewItem (rid : Option Nat) (now : Nat) (st : Store) (path : String)
    (f : CandidateFact) : MemoryItem :=
  { id := st.nextId, content := f.content, categoryPath := path, kind := f.kind
    importance := f.importance, confidence := 1, mentionCount := 1
    sourceResourceId := rid, active := true, supersededBy := none
    createdAt := now, lastAccessed := now }

/-- Modelled from the spec: supersede detection, commit and the
reinforcement shortcut for one candidate fact. An equivalent near-duplicate
is reinforced (mention_count incremented, importance adjusted) instead of
creating a new item; a superseded near-duplicate is deactivated (never
deleted) and linked superseded-by the new item's identifier; otherwise the
new item is appended. -/
def commitFact (caps : Capabilities) (cfg : PipelineConfig) (now : Nat)
    (rid : Option Nat) (st : Store) (path : String) (f : CandidateFact) :
    Store × Option MemoryItem :=
  let newItem := mkNewItem rid now st path f
  match findNear caps cfg st path f.content with
  | some old =>
      match caps.judge old.content f.content with
      | .equivalent =>
          ({ st with items := st.items.map (fun it =>
              if it.id = old.id then
                { it with mentionCount := it.mentionCount + 1
                          importance := min 1 (it.importance + cfg.importanceBoost) }
              else it) }, none)
      | .supersede =>
          ({ st with
              items := (st.items.map (fun it =>
                if it.id = old.id then
                  { it with active := false, supersededBy := some newItem.id }
                else it)) ++ [newItem]
              nextId := st.nextId + 1 }, some newItem)
      | .unrelated =>
          ({ st with items := st.items ++ [newItem], nextId := st.nextId + 1 },
           some newItem)
  | none =>
      ({ st with items := st.items ++ [newItem], nextId := st.nextId + 1 },
       some newItem)

/-- Modelled from the spec: steps 2–5 of ingestion for one candidate fact
(category assignment, then supersede detection / commit / reinforcement). -/
def ingestFact (caps : Capabilities) (cfg : PipelineConfig) (now : Nat)
    (rid : Option Nat) (st : Store) (f : CandidateFact) :
    Except IngestError (Store × Option MemoryItem) :=
  match assignCategory caps cfg now st f.content with
  | .error e => .error e
  | .ok (st₁, path) => .ok (commitFact caps cfg now rid st₁ path f)

/-- Modelled from the spec: ingestion of a list of candidate facts in order. -/
def ingestFacts (caps : Capabilities) (cfg : PipelineConfig) (now : Nat)
    (rid : Option Nat) (st : Store) :
    List CandidateFact → Except IngestError (Store × List MemoryItem)
  | [] => .ok (st, [])
  | f :: fs =>
      match ingestFact caps cfg now rid st f with
      | .error e => .error e
      | .ok (st', created) =>
          match ingestFacts caps cfg now rid st' fs with
          | .error e => .error e
          | .ok (st'', items) => .ok (st'', created.toList ++ items)

/-- Modelled from the spec: `ingest(rawText, metadata) → list<MemoryItem>`.
Zero salient facts yield an empty list and no store writes; otherwise the
raw input is recorded once as a Resource and each candidate fact is
committed in order. -/
def ingest (caps : Capabilities) (cfg : PipelineConfig) (now : Nat)
    (st : Store) (text : String) : Except IngestError (Store × List MemoryItem) :=
  match caps.extract text with
  | [] => .ok (st, [])
  | f :: fs =>
      let res : Resource :=
        { id := st.nextId, uri := "conversation", modality := "conversation"
          content := some text, createdAt := now }
      let st₀ := { st with resources := st.resources ++ [res], nextId := st.nextId + 1 }
      ingestFacts caps cfg now (some res.id) st₀ (f :: fs)

/-- Store well-formedness: stored item identifiers are pairwise distinct and
below the fresh-id counter. -/
def StoreWF (st : Store) : Prop :=
  (itemIds st).Nodup ∧ ∀ it ∈ st.items, it.id < st.nextId

end EternalMemory

namespace EternalMemory.ChatStore

/-! ## Chat session store (claim C10)

Embedded from the zustand store `useChatStore` in the UI source
(`MAX_SESSIONS`, `createNewSession`, `createSession`, `deleteSession`,
`setActiveSession`, `renameSession`, `addMessage`, `setMode`,
`setSelectedMessage`). Timestamps and freshly generated UUIDs are inputs. -/

/-- Role of a chat message. -/
inductive Role where
  | user
  | assistant
  | system
deriving DecidableEq, Repr

/-- A chat message (`Message` interface); auxiliary display fields that the
store never inspects are omitted. -/
structure Message where
  id : String
  role : Role
  content : String
  timestamp : String
deriving DecidableEq, Repr

/-- Retrieval mode of a session. -/
inductive ChatMode where
  | fast
  | deep
deriving DecidableEq, Repr

/-- A chat session (`ChatSession` interface). -/
structure ChatSession where
  id : String
  name : String
  messages : List Message
  mode : ChatMode
  selectedMessageId : Option String
  createdAt : String
  lastActiveAt : String
deriving DecidableEq, Repr

/-- Store state: the persisted `sessions` list and `activeSessionId`. -/
structure State where
  sessions : List ChatSession
  activeSessionId : Option String
deriving DecidableEq, Repr

/-- Maximum number of sessions (`MAX_SESSIONS = 5`). -/
def MAX_SESSIONS : Nat := 5

/-- The `createNewSession` factory: `freshId` stands for
`crypto.randomUUID()` and `now` for `new Date().toISOString()`. -/
def createNewSession (index : Nat) (freshId now : String) : ChatSession :=
  { id := freshId
    name := "Chat " ++ toString index
    messages := [{ id := "1", role := .assistant
                   content := "안녕하세요! 저는 당신의 대화를 기억하는 AI 어시스턴트입니다."
                   timestamp := now }]
    mode := .fast
    selectedMessageId := none
    createdAt := now
    lastActiveAt := now }

/-- The `createSession` action: no-op when `MAX_SESSIONS` sessions exist,
otherwise appends a fresh session and makes it active. -/
def createSession (freshId now : String) (st : State) : State :=
  if MAX_SESSIONS ≤ st.sessions.length then st
  else
    let s := createNewSession (st.sessions.length + 1) freshId now
    { sessions := st.sessions ++ [s], activeSessionId := some s.id }

/-- The `deleteSession` action: deleting from a single-session list replaces
it with a fresh session (made active); otherwise the session is filtered out
and, if it was active, the first remaining session becomes active. -/
def deleteSession (id : String) (freshId now : String) (st : State) : State :=
  if st.sessions.length = 1 then
    let s := createNewSession 1 freshId now
    { sessions := [s], activeSessionId := some s.id }
  else
    let filtered := st.sessions.filter (fun s => s.id ≠ id)
    let newActiveId :=
      if st.activeSessionId = some id then
        match filtered.head? with
        | some s => some s.id
        | none => none
      else st.activeSessionId
    { sessions := filtered, activeSessionId := newActiveId }

/-- The `setActiveSession` action. -/
def setActiveSession (id now : String) (st : State) : State :=
  match st.sessions.find? (fun s => s.id == id) with
  | some _ =>
      { sessions := st.sessions.map (fun s =>
          if s.id = id then { s with lastActiveAt := now } else s)
        activeSessionId := some id }
  | none => st

/-- The `renameSession` action. -/
def renameSession (id name : String) (st : State) : State :=
  { st with sessions := st.sessions.map (fun s =>
      if s.id = id then { s with name := name } else s) }

/-- The `addMessage` action (appends to the active session). -/
def addMessage (m : Message) (now : String) (st : State) : State :=
  match st.activeSessionId with
  | none => st
  | some aid =>
      { st with sessions := st.sessions.map (fun s =>
          if s.id = aid then
            { s with messages := s.messages ++ [m], lastActiveAt := now }
          else s) }

/-- The `setMode` action. -/
def setMode (m : ChatMode) (st : State) : State :=
  match st.activeSessionId with
  | none => st
  | some aid =>
      { st with sessions := st.sessions.map (fun s =>
          if s.id = aid then { s with mode := m } else s) }

/-- The `setSelectedMessage` action. -/
def setSelectedMessage (mid : Option String) (st : State) : State :=
  match st.activeSessionId with
  | none => st
  | some aid =>
      { st with sessions := st.sessions.map (fun s =>
          if s.id = aid then { s with selectedMessageId := mid } else s) }

/-- Initial store state: one fresh session (`sessions: [createNewSession(1)]`,
`activeSessionId: null`). -/
def initialState (freshId now : String) : State :=
  { sessions := [createNewSession 1 freshId now], activeSessionId := none }

/-- One user-interface step of the store. `create` carries the freshness of
the generated UUID (`crypto.randomUUID()` never repeats an existing id). -/
inductive Step : State → State → Prop where
  | create (freshId now : String) (st : State)
      (fresh : freshId ∉ st.sessions.map (fun s => s.id)) :
      Step st (createSession freshId now st)
  | delete (id freshId now : String) (st : State)
      (fresh : freshId ∉ st.sessions.map (fun s => s.id)) :
      Step st (deleteSession id freshId now st)
  | setActive (id now : String) (st : State) : Step st (setActiveSession id now st)
  | rename (id name : String) (st : State) : Step st (renameSession id name st)
  | addMsg (m : Message) (now : String) (st : State) : Step st (addMessage m now st)
  | setMd (m : ChatMode) (st : State) : Step st (setMode m st)
  | setSel (mid : Option String) (st : State) : Step st (setSelectedMessage mid st)

/-- The store invariant: at least one and at most `MAX_SESSIONS` sessions,
with pairwise distinct session ids. -/
def Inv (st : State) : Prop :=
  1 ≤ st.sessions.length ∧ st.sessions.length ≤ MAX_SESSIONS ∧
    (st.sessions.map (fun s => s.id)).Nodup

end EternalMemory.ChatStore

namespace EternalMemory

/-! ## Retrieval engine (claims C4, C6)

The retrieve pipeline's Python body is not part of the repository snapshot;
it is modelled from the spec: hybrid vector+keyword search over active
items, Reciprocal Rank Fusion, threshold filtering, weighted
relevance/recency/importance scoring, fast and deep modes. -/

/-- Retrieval scoring settings (`ScoringSettings` in the UI: `alpha_*`,
`recency_decay_factor`, `min_relevance_threshold`). -/
structure ScoringSettings where
  alphaRelevance : ℚ
  alphaRecency : ℚ
  alphaImportance : ℚ
  recencyDecayFactor : ℚ
  minRelevanceThreshold : ℚ
deriving DecidableEq, Repr

/-- Default scoring settings (ScoringSection defaults: weights 1.0 each,
decay 0.995, minimum relevance threshold 0.3). -/
def defaultScoring : ScoringSettings :=
  { alphaRelevance := 1
    alphaRecency := 1
    alphaImportance := 1
    recencyDecayFactor := mkRat 995 1000
    minRelevanceThreshold := mkRat 3 10 }

/-- Retrieval limits: the RRF constant k, fused candidates kept before
re-scoring, items returned in fast mode, and deep-mode recall. -/
structure RetrievalConfig where
  rrfK : ℚ
  fuseLimit : Nat
  fastReturnLimit : Nat
  deepRecallLimit : Nat
deriving DecidableEq, Repr

/-- Default retrieval limits (k = 60, 20 fused candidates, 5 returned,
deep recall 20). -/
def defaultRetrieval : RetrievalConfig :=
  { rrfK := 60, fuseLimit := 20, fastReturnLimit := 5, deepRecallLimit := 20 }

/-- Index and completion capabilities consumed by retrieval: vector
similarity, keyword/trigram match score, the query-rewrite contract and the
deep-mode reasoning contract. -/
structure RetrievalCaps where
  vecScore : String → MemoryItem → ℚ
  keyScore : String → MemoryItem → ℚ
  rewrite : String → String → String
  reason : String → List MemoryItem → List Category → String

/-- Insert an item into a list kept in descending score order. -/
def insertDesc (score : MemoryItem → ℚ) (x : MemoryItem) :
    List MemoryItem → List MemoryItem
  | [] => [x]
  | y :: ys => if score y ≤ score x then x :: y :: ys else y :: insertDesc score x ys

/-- Rank a list in descending order of a score. -/
def rankBy (score : MemoryItem → ℚ) : List MemoryItem → List MemoryItem
  | [] => []
  | x :: xs => insertDesc score x (rankBy score xs)

/-- RRF contribution of one ranked list: `1 / (k + rank)` at the item's
1-based rank when the item appears in the list, 0 otherwise. -/
def rrfContribution (k : ℚ) (l : List MemoryItem) (x : MemoryItem) : ℚ :=
  match l.indexOf? x with
  | some i => 1 / (k + (i + 1 : Nat))
  | none => 0

/-- Reciprocal Rank Fusion score of a candidate over the vector-ranked and
keyword-ranked lists. -/
def rrfScore (k : ℚ) (vecList keyList : List MemoryItem) (x : MemoryItem) : ℚ :=
  rrfContribution k vecList x + rrfContribution k keyList x

/-- One-based rank of an item in a ranked list. -/
def rankIn (l : List MemoryItem) (x : MemoryItem) : Nat :=
  (l.indexOf? x).getD 0 + 1

/-- Stated from the spec's words, for comparison with `rrfScore`: the fused
score is the sum, over the ranked lists the candidate appears in, of
`1 / (k + rank_i)`. -/
def specRRF (k : ℚ) (lists : List (List MemoryItem)) (x : MemoryItem) : ℚ :=
  (lists.map (fun l => if x ∈ l then 1 / (k + (rankIn l x : Nat)) else 0)).sum

/-- Vector-search ranking over the active items. -/
def vecRanked (caps : RetrievalCaps) (st : Store) (q : String) : List MemoryItem :=
  rankBy (caps.vecScore q) (activeItems st)

/-- Keyword-search ranking over the active items. -/
def keyRanked (caps : RetrievalCaps) (st : Store) (q : String) : List MemoryItem :=
  rankBy (caps.keyScore q) (activeItems st)

/-- Candidates of both ranked lists ordered by fused RRF score. -/
def fusedSorted (caps : RetrievalCaps) (cfg : RetrievalConfig) (st : Store)
    (q : String) : List MemoryItem :=
  let v := vecRanked caps st q
  let kl := keyRanked caps st q
  rankBy (rrfScore cfg.rrfK v kl) ((v ++ kl).dedup)

/-- The top fused candidates kept for re-scoring (default 20). -/
def topFused (caps : RetrievalCaps) (cfg : RetrievalConfig) (st : Store)
    (q : String) : List MemoryItem :=
  (fusedSorted caps cfg st q).take cfg.fuseLimit

/-- Largest fused score among the kept candidates (normalization basis). -/
def maxFusedScore (caps : RetrievalCaps) (cfg : RetrievalConfig) (st : Store)
    (q : String) : ℚ :=
  ((topFused caps cfg st q).map
      (rrfScore cfg.rrfK (vecRanked caps st q) (keyRanked caps st q))).foldl max 0

/-- Normalized fused rank score (the `relevance` signal). -/
def normRelevance (caps : RetrievalCaps) (cfg : RetrievalConfig) (st : Store)
    (q : String) (x : MemoryItem) : ℚ :=
  rrfScore cfg.rrfK (vecRanked caps st q) (keyRanked caps st q) x
    / maxFusedScore caps cfg st q

/-- Candidates surviving the minimum-relevance threshold, applied before the
weighted scoring step. -/
def keptCandidates (caps : RetrievalCaps) (cfg : RetrievalConfig)
    (sc : ScoringSettings) (st : Store) (q : String) : List MemoryItem :=
  (topFused caps cfg st q).filter
    (fun x => decide (sc.minRelevanceThreshold ≤ normRelevance caps cfg st q x))

/-- The weighted final score
`α_r · relevance + α_c · recency + α_i · importance`. -/
def totalScore (caps : RetrievalCaps) (cfg : RetrievalConfig)
    (sc : ScoringSettings) (now : Nat) (st : Store) (q : String)
    (x : MemoryItem) : ℚ :=
  sc.alphaRelevance * normRelevance caps cfg st q x
    + sc.alphaRecency * recencyScore sc.recencyDecayFactor (now - x.lastAccessed)
    + sc.alphaImportance * x.importance

/-- Fast-mode item list: surviving candidates ranked by weighted score, 5
returned by default. -/
def fastItems (caps : RetrievalCaps) (cfg : RetrievalConfig)
    (sc : ScoringSettings) (now : Nat) (st : Store) (q : String) :
    List MemoryItem :=
  (rankBy (totalScore caps cfg sc now st q) (keptCandidates caps cfg sc st q)).take
    cfg.fastReturnLimit

/-- Deep-mode item list: the same hybrid search with wider recall (default
20 items) to seed candidate categories. -/
def deepItems (caps : RetrievalCaps) (cfg : RetrievalConfig)
    (sc : ScoringSettings) (now : Nat) (st : Store) (q : String) :
    List MemoryItem :=
  (rankBy (totalScore caps cfg sc now st q) (keptCandidates caps cfg sc st q)).take
    cfg.deepRecallLimit

/-- Retrieval operating mode. -/
inductive RetrievalMode where
  | fast
  | deep
deriving DecidableEq, Repr

/-- The retrieval result shape (`RetrievalResult`): ordered items, related
category paths, suggested context, the evolved query, the mode used and an
overall confidence score. -/
structure RetrievalResult where
  items : List MemoryItem
  relatedCategories : List String
  suggestedContext : String
  queryEvolved : Option String
  retrievalMode : RetrievalMode
  confidenceScore : ℚ
deriving Repr

/-- Modelled from the spec: `retrieve(query, mode)` — optional query
evolution from conversational context, the fast or deep pipeline over the
active items, and the write-through `last_accessed` bump on returned items. -/
def retrieve (caps : RetrievalCaps) (cfg : RetrievalConfig)
    (sc : ScoringSettings) (now : Nat) (st : Store) (query : String)
    (context : Option String) (mode : RetrievalMode) :
    RetrievalResult × Store :=
  let q := match context with
    | some ctx => caps.rewrite query ctx
    | none => query
  let evolved := match context with
    | some _ => some q
    | none => none
  let items := match mode with
    | .fast => fastItems caps cfg sc now st q
    | .deep => deepItems caps cfg sc now st q
  let cats := (items.map (fun i => i.categoryPath)).dedup
  let answer := match mode with
    | .fast => ""
    | .deep => caps.reason q items (st.categories.filter (fun c => decide (c.path ∈ cats)))
  let returnedIds := items.map (fun i => i.id)
  let st' := { st with items := st.items.map (fun it =>
      if it.id ∈ returnedIds then { it with lastAccessed := now } else it) }
  ({ items := items, relatedCategories := cats, suggestedContext := answer
     queryEvolved := evolved, retrievalMode := mode
     confidenceScore := (items.map (normRelevance caps cfg st q)).foldl max 0 },
   st')

/-! ## Consolidation engine (claims C1, C9)

Embedded from the `ConsolidatePipeline.execute` and `_split_category` code
recorded in the repository's memory specification: the stale scan performs
no state change (the deletion branch is `pass`), the summary refresh
overwrites the summary of every category that has items, and oversized
categories are split into child categories. -/

/-- Items not accessed within the staleness window (`get_stale_items`). -/
def staleItems (cfg : PipelineConfig) (now : Nat) (st : Store) : List MemoryItem :=
  st.items.filter (fun it => decide (cfg.staleDays * 24 ≤ now - it.lastAccessed))

/-- Refresh of one category's summary against the store's items: a category
with at least one member item has its summary overwritten with the
summarization contract's output on those items. -/
def refreshCat (caps : Capabilities) (items : List MemoryItem) (c : Category) :
    Category :=
  let cit := items.filter (fun it => it.categoryPath == c.path)
  if 0 < cit.length then { c with summary := some (caps.summarize cit) } else c

/-- The summary-refresh step of `ConsolidatePipeline.execute`: every
category with at least one member item has its summary overwritten with the
summarization contract's output on those items. -/
def summaryRefresh (caps : Capabilities) (st : Store) : Store :=
  { st with categories := st.categories.map (refreshCat caps st.items) }

/-- Whether a category's active item count exceeds the split bound
(`_category_is_too_large`). -/
def categoryTooLarge (cfg : PipelineConfig) (st : Store) (c : Category) : Bool :=
  decide (cfg.splitBound < ((itemsByPath st c.path).filter (fun it => it.active)).length)

/-- One cluster of a category split: ensure a child category under the
parent's path (best-effort, as in the source an existing path is reused) and
reassign the cluster's items to it. -/
def splitAssign (now : Nat) (c : Category) (acc : Store) (cl : String × List Nat) :
    Store :=
  let newPath := c.path ++ "/" ++ cl.1
  let acc₁ : Store :=
    match acc.categories.find? (fun d => d.path == newPath) with
    | some _ => acc
    | none =>
        { acc with
            categories := acc.categories ++
              [{ id := acc.nextId, name := cl.1, parentId := some c.id
                 summary := none, path := newPath, lastAccessed := now }]
            nextId := acc.nextId + 1 }
  { acc₁ with items := acc₁.items.map (fun it =>
      if it.id ∈ cl.2 then { it with categoryPath := newPath } else it) }

/-- The `_split_category` step: for each suggested cluster, ensure a child
category under the parent's path and reassign the cluster's items to it. -/
def splitCategory (caps : Capabilities) (now : Nat) (st : Store) (c : Category) :
    Store :=
  (caps.suggestSubcategories c (itemsByPath st c.path)).foldl (splitAssign now c) st

/-- The `ConsolidatePipeline.execute` pipeline: stale scan (no state
change — the archival branch of the source is `pass`), summary refresh,
then a split pass over the categories listed at entry. -/
def consolidate (caps : Capabilities) (cfg : PipelineConfig) (now : Nat)
    (st : Store) : Store :=
  let _stale := staleItems cfg now st
  let st₁ := summaryRefresh caps st
  st.categories.foldl
    (fun acc c => if categoryTooLarge cfg acc c then splitCategory caps now acc c
                  else acc)
    st₁

/-- Summary stored for the category at a path. -/
def categorySummary (st : Store) (p : String) : Option String :=
  (st.categories.find? (fun c => c.path == p)).bind (fun c => c.summary)

/-- Stated from the spec's words, for comparison with the code: a category
is untouched since its last summary, taken at time `t`, when none of its
member items was created or accessed after `t`. -/
def specUntouchedSince (st : Store) (c : Category) (t : Nat) : Prop :=
  ∀ it ∈ itemsByPath st c.path, it.createdAt ≤ t ∧ it.lastAccessed ≤ t

/-! ## Scheduled background jobs (claim C1)

The task types offered by the scheduler, as described on the DatabasePage
Tasks tab and in the repository's memory specification. The job bodies are
not part of the repository snapshot; each is modelled from its in-repository
description. -/

/-- Scheduled job types (`daily_reflection`, `weekly_summary`,
`maintenance`, `vault_backup`, `memory_cleanup`, `stats_snapshot`,
`embedding_refresh`). -/
inductive JobType where
  | dailyReflection
  | weeklySummary
  | maintenance
  | vaultBackup
  | memoryCleanup
  | statsSnapshot
  | embeddingRefresh
deriving DecidableEq, Repr

/-- Modelled from the spec: the `memory_cleanup` scheduled job deletes old,
low-importance memories — items not accessed for 30 days or more whose
importance is below 0.3 (DatabasePage task-type description). -/
def memoryCleanup (now : Nat) (st : Store) : Store :=
  { st with items := st.items.filter (fun it =>
      !(decide (30 * 24 ≤ now - it.lastAccessed) && decide (it.importance < mkRat 3 10))) }

/-- Modelled from the spec: a reflection job summarizes the memories of the
trailing window and memorizes the summary as a new memory (failures leave
the store unchanged). -/
def reflectionJob (caps : Capabilities) (cfg : PipelineConfig)
    (windowHours now : Nat) (st : Store) : Store :=
  let recent := st.items.filter (fun it => decide (now - windowHours ≤ it.createdAt))
  let text := caps.summarize recent
  match ingest caps cfg now st text with
  | .ok (st', _) => st'
  | .error _ => st

/-- Modelled from the spec: dispatch of one scheduled job. `vault_backup`
copies the markdown vault, `stats_snapshot` logs statistics and
`embedding_refresh` regenerates vectors; none of the three changes stored
identifiers, so on this embedding (which carries no vault, log or vector
payloads) they leave the store unchanged. -/
def runJob (caps : Capabilities) (cfg : PipelineConfig) (now : Nat)
    (j : JobType) (st : Store) : Store :=
  match j with
  | .dailyReflection => reflectionJob caps cfg 24 now st
  | .weeklySummary => reflectionJob caps cfg (7 * 24) now st
  | .maintenance => consolidate caps cfg now st
  | .vaultBackup => st
  | .memoryCleanup => memoryCleanup now st
  | .statsSnapshot => st
  | .embeddingRefresh => st

/-- Eternal retention between two store states: every stored Resource,
Category and MemoryItem identifier of the first state is still stored in the
second. -/
def IdsPreserved (st st' : Store) : Prop :=
  (∀ i ∈ itemIds st, i ∈ itemIds st')
  ∧ (∀ i ∈ categoryIds st, i ∈ categoryIds st')
  ∧ (∀ i ∈ resourceIds st, i ∈ resourceIds st')

/-! ## Concrete instances used to exercise the operations -/

/-- A memory item with the given identifier, path, importance and times;
remaining fields fixed. -/
def exItem (i : Nat) (path content : String) (imp : ℚ) (created accessed : Nat) :
    MemoryItem :=
  { id := i, content := content, categoryPath := path, kind := .fact
    importance := imp, confidence := 1, mentionCount := 1
    sourceResourceId := none, active := true, supersededBy := none
    createdAt := created, lastAccessed := accessed }

/-- A category with the given identifier, path, parent and summary. -/
def exCat (i : Nat) (p : String) (parent : Option Nat) (s : Option String) :
    Category :=
  { id := i, name := lastSegment p, parentId := parent, summary := s
    path := p, lastAccessed := 0 }

/-- Capabilities whose extraction contract returns no candidate facts. -/
def exCapsEmpty : Capabilities :=
  { extract := fun _ => []
    judge := fun _ _ => .unrelated
    categorySim := fun _ _ => 0
    itemSim := fun _ _ => 0
    suggestPath := fun _ => "misc"
    summarize := fun l => "S" ++ toString l.length
    suggestSubcategories := fun _ _ => [] }

/-- Capabilities whose contradiction contract judges supersede and whose
similarities are maximal. -/
def exCapsSup : Capabilities :=
  { exCapsEmpty with
      judge := fun _ _ => .supersede
      categorySim := fun _ _ => 1
      itemSim := fun _ _ => 1 }

/-- Capabilities whose contradiction contract judges equivalence. -/
def exCapsEq : Capabilities :=
  { exCapsSup with judge := fun _ _ => .equivalent }

/-- Capabilities with no sufficiently similar category whose suggested path
collides with differently-parented lineage in `exStoreConflict`. -/
def exCapsConflict : Capabilities :=
  { exCapsEmpty with suggestPath := fun _ => "a/b" }

/-- A store holding one category `p` and one active item in it. -/
def exStoreSup : Store :=
  { resources := []
    categories := [exCat 0 "p" none none]
    items := [exItem 0 "p" "old fact" (mkRat 1 2) 0 0]
    nextId := 1 }

/-- A store with a stale low-importance item (for the cleanup job). -/
def exStoreClean : Store :=
  { resources := []
    categories := []
    items := [exItem 0 "p" "stale fact" (mkRat 1 5) 0 0]
    nextId := 1 }

/-- A store whose category path `a/b` carries lineage different from the
lineage derived from its parent prefix `a`. -/
def exStoreConflict : Store :=
  { resources := []
    categories := [exCat 1 "a" none none, exCat 2 "a/b" (some 99) none]
    items := []
    nextId := 3 }

/-- A store whose category `p` holds an untouched item but a stored summary
different from the summarization contract's output. -/
def exStoreStale : Store :=
  { resources := []
    categories := [exCat 0 "p" none (some "old summary")]
    items := [exItem 0 "p" "fact" (mkRat 1 2) 0 0]
    nextId := 1 }

end EternalMemory

namespace EternalMemory.ChatStore

/-- A two-session chat state with distinct ids. -/
def exChatState : State :=
  { sessions := [createNewSession 1 "a" "t0", createNewSession 2 "b" "t0"]
    activeSessionId := some "a" }

/-- A full chat state holding `MAX_SESSIONS` sessions. -/
def exChatFull : State :=
  { sessions := [createNewSession 1 "a" "t0", createNewSession 2 "b" "t0",
                 createNewSession 3 "c" "t0", createNewSession 4 "d" "t0",
                 createNewSession 5 "e" "t0"]
    activeSessionId := some "a" }

end EternalMemory.ChatStore

/-! # Theorems -/

namespace EternalMemory

/-- Mapping a function that preserves a projection leaves the projected list
unchanged. -/
theorem map_comp_eq_map {α β : Type} (g : α → β) (f : α → α) (l : List α)
    (h : ∀ a, g (f a) = g a) : (l.map f).map g = l.map g := by
  rw [List.map_map]
  exact List.map_congr_left (fun a _ => h a)

set_option maxRecDepth 4000 in
/-- C3: the recency score `decay^t` at the default decay 0.995 is
monotonically decreasing in the elapsed hours and satisfies
`recency(0) = 1`, `|recency(24) - 0.887| ≤ 0.01` and
`|recency(720) - 0.024| ≤ 0.01`. -/
theorem recency_decay_properties :
    recencyScore defaultRecencyDecay 0 = 1
    ∧ (∀ m n : Nat, m < n →
        recencyScore defaultRecencyDecay n < recencyScore defaultRecencyDecay m)
    ∧ |recencyScore defaultRecencyDecay 24 - 887/1000| ≤ 1/100
    ∧ |recencyScore defaultRecencyDecay 720 - 24/1000| ≤ 1/100 := by
  refine ⟨by norm_num [recencyScore], ?_, ?_, ?_⟩
  · intro m n h
    exact pow_lt_pow_right_of_lt_one₀ (by norm_num [defaultRecencyDecay])
      (by norm_num [defaultRecencyDecay]) h
  · unfold recencyScore defaultRecencyDecay
    rw [abs_le]
    constructor <;> norm_num
  · unfold recencyScore defaultRecencyDecay
    rw [abs_le]
    constructor <;> norm_num

/-- Witness for C3: at one hour more elapsed time the recency score is
strictly smaller. -/
theorem recency_decay_properties_witness :
    recencyScore defaultRecencyDecay 2 < recencyScore defaultRecencyDecay 1 :=
  recency_decay_properties.2.1 1 2 (by decide)

/-- C8: an ingestion whose salience extraction yields zero candidate facts
returns the empty list and leaves the store (fact store, index mirror and
resources alike) unchanged. -/
theorem ingest_no_facts_no_writes :
    ∀ (caps : Capabilities) (cfg : PipelineConfig) (now : Nat) (st : Store)
      (text : String),
      caps.extract text = [] →
      ingest caps cfg now st text = .ok (st, []) := by
  intro caps cfg now st text h
  simp [ingest, h]

/-- Witness for C8: concrete capabilities extracting nothing leave a
concrete store untouched. -/
theorem ingest_no_facts_no_writes_witness :
    ingest exCapsEmpty defaultPipeline 0 exStoreSup "hello" = .ok (exStoreSup, []) :=
  ingest_no_facts_no_writes exCapsEmpty defaultPipeline 0 exStoreSup "hello" rfl

end EternalMemory

namespace EternalMemory.ChatStore

/-- Removing one id from a list of sessions with pairwise distinct ids
removes at most one session. -/
theorem length_filter_ne_of_nodup (l : List ChatSession) (x : String)
    (h : (l.map (fun s => s.id)).Nodup) :
    l.length - 1 ≤ (l.filter (fun s => s.id ≠ x)).length := by
  induction l with
  | nil => simp
  | cons a t ih =>
      simp only [List.map_cons, List.nodup_cons] at h
      rw [List.filter_cons]
      by_cases ha : a.id = x
      · have hpa : (decide (a.id ≠ x)) = false := by simp [ha]
        rw [hpa]
        have ht : t.filter (fun s => s.id ≠ x) = t := by
          rw [List.filter_eq_self]
          intro s hs
          simp only [decide_eq_true_eq]
          intro hsx
          exact h.1 (by
            rw [← ha] at hsx
            exact hsx ▸ List.mem_map_of_mem (fun s => s.id) hs)
        rw [if_neg Bool.false_ne_true, ht]
        simp only [List.length_cons]
        omega
      · have hpa : (decide (a.id ≠ x)) = true := by simp [ha]
        rw [hpa]
        have := ih h.2
        simp only [if_true, List.length_cons]
        omega

/-- An update that preserves session ids preserves the store invariant,
whatever the active-session field becomes. -/
theorem inv_sessions_map (sessions : List ChatSession) (x : Option String)
    (f : ChatSession → ChatSession) (hf : ∀ s, (f s).id = s.id)
    (h1 : 1 ≤ sessions.length) (h5 : sessions.length ≤ MAX_SESSIONS)
    (hnd : (sessions.map (fun s => s.id)).Nodup) :
    Inv { sessions := sessions.map f, activeSessionId := x } := by
  refine ⟨by simpa, by simpa, ?_⟩
  show ((sessions.map f).map (fun s => s.id)).Nodup
  rw [EternalMemory.map_comp_eq_map (fun s => s.id) f sessions hf]
  exact hnd

/-- C10: the chat session store keeps between 1 and `MAX_SESSIONS` = 5
sessions (with distinct ids) across every store action; `createSession` is a
no-op when 5 sessions exist; and `deleteSession` applied to the only
remaining session replaces it with a fresh active session instead of leaving
zero sessions. -/
theorem chat_sessions_bounded_nonempty :
    MAX_SESSIONS = 5
    ∧ (∀ st st' : State, Inv st → Step st st' → Inv st')
    ∧ (∀ (fid now : String) (st : State),
        MAX_SESSIONS ≤ st.sessions.length → createSession fid now st = st)
    ∧ (∀ (s0 : ChatSession) (fid now : String) (st : State),
        st.sessions = [s0] →
        (deleteSession s0.id fid now st).sessions = [createNewSession 1 fid now]
        ∧ (deleteSession s0.id fid now st).activeSessionId
            = some (createNewSession 1 fid now).id) := by
  refine ⟨rfl, ?_, ?_, ?_⟩
  · intro st st' hinv hstep
    obtain ⟨h1, h5, hnd⟩ := hinv
    cases hstep with
    | create fid now st hfresh =>
        unfold createSession
        by_cases hle : MAX_SESSIONS ≤ st.sessions.length
        · simpa [hle] using ⟨h1, h5, hnd⟩
        · simp only [hle, if_false]
          have h5' : st.sessions.length < MAX_SESSIONS := Nat.lt_of_not_le hle
          refine ⟨by simp, ?_, ?_⟩
          · show (st.sessions ++
              [createNewSession (st.sessions.length + 1) fid now]).length ≤ MAX_SESSIONS
            simp only [List.length_append, List.length_cons, List.length_nil]
            omega
          show ((st.sessions ++ [createNewSession (st.sessions.length + 1) fid now]).map
            (fun s => s.id)).Nodup
          rw [List.map_append]
          rw [List.nodup_append]
          refine ⟨hnd, by simp, ?_⟩
          intro a ha hb
          simp only [List.map_cons, List.map_nil, List.mem_singleton] at hb
          subst hb
          exact hfresh ha
    | delete id fid now st hfresh =>
        unfold deleteSession
        by_cases hone : st.sessions.length = 1
        · simp only [hone, if_true]
          exact ⟨by simp, by simp [MAX_SESSIONS], by simp⟩
        · simp only [hone, if_false]
          refine ⟨?_, ?_, ?_⟩
          · show 1 ≤ (st.sessions.filter (fun s => s.id ≠ id)).length
            have := length_filter_ne_of_nodup st.sessions id hnd
            omega
          · show (st.sessions.filter (fun s => s.id ≠ id)).length ≤ MAX_SESSIONS
            exact le_trans (List.length_filter_le _ _) h5
          · show ((st.sessions.filter (fun s => s.id ≠ id)).map (fun s => s.id)).Nodup
            exact List.Nodup.sublist
              ((List.filter_sublist st.sessions).map (fun s => s.id)) hnd
    | setActive id now st =>
        unfold setActiveSession
        cases hfind : st.sessions.find? (fun s => s.id == id) with
        | none => exact ⟨h1, h5, hnd⟩
        | some s =>
            exact inv_sessions_map st.sessions (some id) _
              (fun s => by by_cases h : s.id = id <;> simp [h]) h1 h5 hnd
    | rename id name st =>
        exact inv_sessions_map st.sessions st.activeSessionId _
          (fun s => by by_cases h : s.id = id <;> simp [h]) h1 h5 hnd
    | addMsg m now st =>
        unfold addMessage
        cases st.activeSessionId with
        | none => exact ⟨h1, h5, hnd⟩
        | some aid =>
            exact inv_sessions_map st.sessions (some aid) _
              (fun s => by by_cases h : s.id = aid <;> simp [h]) h1 h5 hnd
    | setMd m st =>
        unfold setMode
        cases st.activeSessionId with
        | none => exact ⟨h1, h5, hnd⟩
        | some aid =>
            exact inv_sessions_map st.sessions (some aid) _
              (fun s => by by_cases h : s.id = aid <;> simp [h]) h1 h5 hnd
    | setSel mid st =>
        unfold setSelectedMessage
        cases st.activeSessionId with
        | none => exact ⟨h1, h5, hnd⟩
        | some aid =>
            exact inv_sessions_map st.sessions (some aid) _
              (fun s => by by_cases h : s.id = aid <;> simp [h]) h1 h5 hnd
  · intro fid now st hle
    unfold createSession
    simp [hle]
  · intro s0 fid now st hs
    unfold deleteSession
    simp [hs]

/-- Witness for C10: a create step from a concrete two-session state
preserves the invariant. -/
theorem chat_sessions_bounded_nonempty_witness :
    Inv (createSession "c" "t1" exChatState) :=
  chat_sessions_bounded_nonempty.2.1 exChatState (createSession "c" "t1" exChatState)
    ⟨by decide, by decide, by decide⟩
    (Step.create "c" "t1" exChatState (by decide))

end EternalMemory.ChatStore

namespace EternalMemory

/-- Finding by identifier after an id-preserving targeted update returns the
updated record, provided stored ids are pairwise distinct. -/
theorem find?_map_update (l : List MemoryItem) (tid : Nat)
    (f : MemoryItem → MemoryItem) (hf : ∀ it, (f it).id = it.id)
    (old : MemoryItem) (hmem : old ∈ l) (hid : old.id = tid)
    (hnd : (l.map (fun i => i.id)).Nodup) :
    (l.map (fun it => if it.id = tid then f it else it)).find?
      (fun it => it.id == tid) = some (f old) := by
  induction l with
  | nil => cases hmem
  | cons a t ih =>
      simp only [List.map_cons, List.nodup_cons] at hnd
      rw [List.map_cons]
      by_cases ha : a.id = tid
      · have haold : a = old := by
          rcases List.mem_cons.mp hmem with h | h
          · exact h.symm
          · exact absurd (by
                have : old.id ∈ t.map (fun i => i.id) :=
                  List.mem_map_of_mem (fun i => i.id) h
                rw [hid, ← ha] at this
                exact this) hnd.1
        rw [if_pos ha]
        rw [List.find?_cons_of_pos]
        · rw [haold]
        · show ((f a).id == tid) = true
          rw [hf a, ha]
          exact beq_self_eq_true tid
      · have hmem' : old ∈ t := by
          rcases List.mem_cons.mp hmem with h | h
          · exact absurd (h ▸ hid) ha
          · exact h
        rw [if_neg ha]
        rw [List.find?_cons_of_neg]
        · exact ih hmem' hnd.2
        · show ¬(a.id == tid) = true
          simp [ha]

/-- Shape of a successful category assignment: items and resources are
untouched, category identifiers are preserved and the fresh-id counter does
not decrease. -/
theorem assignCategory_ok (caps : Capabilities) (cfg : PipelineConfig)
    (now : Nat) (st : Store) (content : String) (st₁ : Store) (p : String)
    (h : assignCategory caps cfg now st content = .ok (st₁, p)) :
    st₁.items = st.items ∧ st₁.resources = st.resources
    ∧ (∀ i ∈ categoryIds st, i ∈ categoryIds st₁) ∧ st.nextId ≤ st₁.nextId := by
  simp only [assignCategory] at h
  split at h
  · -- an existing category was chosen: the store is unchanged
    rcases h with ⟨rfl, rfl⟩
    exact ⟨rfl, rfl, fun i hi => hi, le_refl _⟩
  · -- a category is ensured at the suggested path
    simp only [ensureCategory] at h
    split at h
    · rename_i st' c heq
      rcases h with ⟨rfl, rfl⟩
      split at heq
      · split at heq
        · rcases heq with ⟨rfl, rfl⟩
          exact ⟨rfl, rfl, fun i hi => hi, le_refl _⟩
        · cases heq
      · rcases heq with ⟨rfl, rfl⟩
        refine ⟨rfl, rfl, ?_, Nat.le_succ _⟩
        intro i hi
        simp only [categoryIds, List.map_append]
        exact List.mem_append.mpr (Or.inl hi)
    · cases h

/-- C2: when the contradiction contract judges a candidate to supersede an
existing active item, ingestion deactivates the old item (active flag
false), links it superseded-by the new item's identifier, stores the new
item active, and the old item remains retrievable by its identifier. -/
theorem ingest_supersede_deactivates_old (caps : Capabilities)
    (cfg : PipelineConfig) (now : Nat) (rid : Option Nat) (st st₁ : Store)
    (path : String) (f : CandidateFact) (old : MemoryItem)
    (hassign : assignCategory caps cfg now st f.content = .ok (st₁, path))
    (hwf : StoreWF st₁)
    (hnear : findNear caps cfg st₁ path f.content = some old)
    (hjudge : caps.judge old.content f.content = .supersede) :
    ∃ st₂ : Store,
      ingestFact caps cfg now rid st f
          = .ok (st₂, some (mkNewItem rid now st₁ path f))
      ∧ findItem st₂ old.id
          = some { old with active := false
                            supersededBy := some (mkNewItem rid now st₁ path f).id }
      ∧ findItem st₂ (mkNewItem rid now st₁ path f).id
          = some (mkNewItem rid now st₁ path f)
      ∧ (mkNewItem rid now st₁ path f).active = true := by
  have hmem : old ∈ st₁.items := by
    have h1 := List.mem_of_find?_eq_some hnear
    have h2 := List.mem_of_mem_filter h1
    simp only [itemsByPath] at h2
    exact List.mem_of_mem_filter h2
  refine ⟨{ st₁ with
      items := (st₁.items.map (fun it =>
        if it.id = old.id then
          { it with active := false
                    supersededBy := some (mkNewItem rid now st₁ path f).id }
        else it)) ++ [mkNewItem rid now st₁ path f]
      nextId := st₁.nextId + 1 }, ?_, ?_, ?_, rfl⟩
  · simp only [ingestFact, hassign, commitFact, hnear, hjudge]
  · show ((st₁.items.map (fun it =>
        if it.id = old.id then
          { it with active := false
                    supersededBy := some (mkNewItem rid now st₁ path f).id }
        else it)) ++ [mkNewItem rid now st₁ path f]).find?
        (fun it => it.id == old.id) = _
    rw [List.find?_append]
    rw [find?_map_update st₁.items old.id
      (fun it => { it with active := false
                           supersededBy := some (mkNewItem rid now st₁ path f).id })
      (fun _ => rfl) old hmem rfl hwf.1]
    rfl
  · show ((st₁.items.map (fun it =>
        if it.id = old.id then
          { it with active := false
                    supersededBy := some (mkNewItem rid now st₁ path f).id }
        else it)) ++ [mkNewItem rid now st₁ path f]).find?
        (fun it => it.id == (mkNewItem rid now st₁ path f).id) = _
    rw [List.find?_append]
    have hnone : (st₁.items.map (fun it =>
        if it.id = old.id then
          { it with active := false
                    supersededBy := some (mkNewItem rid now st₁ path f).id }
        else it)).find?
        (fun it => it.id == (mkNewItem rid now st₁ path f).id) = none := by
      rw [List.find?_eq_none]
      intro x hx
      obtain ⟨it, hit, rfl⟩ := List.mem_map.mp hx
      have hlt : it.id < st₁.nextId := hwf.2 it hit
      have hid : (if it.id = old.id then
          { it with active := false
                    supersededBy := some (mkNewItem rid now st₁ path f).id }
        else it).id = it.id := by
        by_cases h : it.id = old.id <;> simp [h]
      have hmk : (mkNewItem rid now st₁ path f).id = st₁.nextId := rfl
      rw [hid, hmk]
      simp only [beq_iff_eq]
      omega
    rw [hnone]
    simp [List.find?]

/-- Witness for C2: a concrete supersede ingestion on a one-item store. -/
theorem ingest_supersede_deactivates_old_witness :
    ∃ st₂ : Store,
      ingestFact exCapsSup defaultPipeline 7 none exStoreSup
          { content := "new fact", kind := .preference, categoryPath := "p"
            importance := mkRat 3 5 }
          = .ok (st₂, some (mkNewItem none 7 exStoreSup "p"
              { content := "new fact", kind := .preference, categoryPath := "p"
                importance := mkRat 3 5 }))
      ∧ findItem st₂ (exItem 0 "p" "old fact" (mkRat 1 2) 0 0).id
          = some { (exItem 0 "p" "old fact" (mkRat 1 2) 0 0) with
                     active := false
                     supersededBy := some (mkNewItem none 7 exStoreSup "p"
                       { content := "new fact", kind := .preference
                         categoryPath := "p", importance := mkRat 3 5 }).id }
      ∧ findItem st₂ (mkNewItem none 7 exStoreSup "p"
            { content := "new fact", kind := .preference, categoryPath := "p"
              importance := mkRat 3 5 }).id
          = some (mkNewItem none 7 exStoreSup "p"
              { content := "new fact", kind := .preference, categoryPath := "p"
                importance := mkRat 3 5 })
      ∧ (mkNewItem none 7 exStoreSup "p"
          { content := "new fact", kind := .preference, categoryPath := "p"
            importance := mkRat 3 5 }).active = true :=
  ingest_supersede_deactivates_old exCapsSup defaultPipeline 7 none exStoreSup
    exStoreSup "p" _ _ (by rfl) ⟨by decide, by decide⟩ (by rfl) rfl

end EternalMemory

namespace EternalMemory

/-- C5: when the contradiction contract judges a candidate equivalent to an
existing near-duplicate, ingestion increments that item's mention count and
adjusts its importance instead of creating a new item; the total number of
stored items does not grow. -/
theorem ingest_equivalent_reinforces (caps : Capabilities)
    (cfg : PipelineConfig) (now : Nat) (rid : Option Nat) (st st₁ : Store)
    (path : String) (f : CandidateFact) (old : MemoryItem)
    (hassign : assignCategory caps cfg now st f.content = .ok (st₁, path))
    (hwf : StoreWF st₁)
    (hnear : findNear caps cfg st₁ path f.content = some old)
    (hjudge : caps.judge old.content f.content = .equivalent) :
    ∃ st₂ : Store,
      ingestFact caps cfg now rid st f = .ok (st₂, none)
      ∧ st₂.items.length = st.items.length
      ∧ findItem st₂ old.id
          = some { old with
                     mentionCount := old.mentionCount + 1
                     importance := min 1 (old.importance + cfg.importanceBoost) } := by
  have hmem : old ∈ st₁.items := by
    have h1 := List.mem_of_find?_eq_some hnear
    have h2 := List.mem_of_mem_filter h1
    simp only [itemsByPath] at h2
    exact List.mem_of_mem_filter h2
  refine ⟨{ st₁ with
      items := st₁.items.map (fun it =>
        if it.id = old.id then
          { it with mentionCount := it.mentionCount + 1
                    importance := min 1 (it.importance + cfg.importanceBoost) }
        else it) }, ?_, ?_, ?_⟩
  · simp only [ingestFact, hassign, commitFact, hnear, hjudge]
  · show (st₁.items.map _).length = st.items.length
    rw [List.length_map, (assignCategory_ok caps cfg now st f.content st₁ path hassign).1]
  · show (st₁.items.map (fun it =>
        if it.id = old.id then
          { it with mentionCount := it.mentionCount + 1
                    importance := min 1 (it.importance + cfg.importanceBoost) }
        else it)).find? (fun it => it.id == old.id) = _
    rw [find?_map_update st₁.items old.id
      (fun it => { it with mentionCount := it.mentionCount + 1
                           importance := min 1 (it.importance + cfg.importanceBoost) })
      (fun _ => rfl) old hmem rfl hwf.1]

/-- Witness for C5: a concrete equivalent ingestion on a one-item store. -/
theorem ingest_equivalent_reinforces_witness :
    ∃ st₂ : Store,
      ingestFact exCapsEq defaultPipeline 7 none exStoreSup
          { content := "new fact", kind := .preference, categoryPath := "p"
            importance := mkRat 3 5 }
          = .ok (st₂, none)
      ∧ st₂.items.length = exStoreSup.items.length
      ∧ findItem st₂ (exItem 0 "p" "old fact" (mkRat 1 2) 0 0).id
          = some { (exItem 0 "p" "old fact" (mkRat 1 2) 0 0) with
                     mentionCount := (exItem 0 "p" "old fact" (mkRat 1 2) 0 0).mentionCount + 1
                     importance := min 1 ((exItem 0 "p" "old fact" (mkRat 1 2) 0 0).importance
                       + defaultPipeline.importanceBoost) } :=
  ingest_equivalent_reinforces exCapsEq defaultPipeline 7 none exStoreSup
    exStoreSup "p" _ _ (by rfl) ⟨by decide, by decide⟩ (by rfl) rfl

end EternalMemory

namespace EternalMemory

/-- C7: category assignment assigns to the best existing category when its
similarity reaches the threshold (default 0.7); below the threshold it
creates a category at the suggested path, and a path collision with
different lineage is reported as the distinct naming-conflict error — the
operation returns the error rather than retrying. -/
theorem category_assignment_threshold_and_conflict :
    defaultPipeline.categoryThreshold = 7/10
    ∧ (∀ (caps : Capabilities) (cfg : PipelineConfig) (now : Nat) (st : Store)
        (content : String) (c : Category) (s : ℚ),
        bestCategory caps st content = some (c, s) →
        cfg.categoryThreshold ≤ s →
        assignCategory caps cfg now st content = .ok (st, c.path))
    ∧ (∀ (caps : Capabilities) (cfg : PipelineConfig) (now : Nat) (st : Store)
        (content : String) (c' : Category),
        (bestCategory caps st content = none
          ∨ ∃ c s, bestCategory caps st content = some (c, s)
              ∧ s < cfg.categoryThreshold) →
        st.categories.find? (fun d => d.path == caps.suggestPath content) = some c' →
        c'.parentId ≠ derivedParentId st (caps.suggestPath content) →
        assignCategory caps cfg now st content = .error .namingConflict)
    ∧ (∀ (caps : Capabilities) (cfg : PipelineConfig) (now : Nat) (st : Store)
        (content : String),
        (bestCategory caps st content = none
          ∨ ∃ c s, bestCategory caps st content = some (c, s)
              ∧ s < cfg.categoryThreshold) →
        st.categories.find? (fun d => d.path == caps.suggestPath content) = none →
        assignCategory caps cfg now st content
          = .ok ({ st with
              categories := st.categories ++
                [{ id := st.nextId
                   name := lastSegment (caps.suggestPath content)
                   parentId := derivedParentId st (caps.suggestPath content)
                   summary := none
                   path := caps.suggestPath content
                   lastAccessed := now }]
              nextId := st.nextId + 1 }, caps.suggestPath content)) := by
  refine ⟨?_, ?_, ?_, ?_⟩
  · show (mkRat 7 10 : ℚ) = 7/10
    rw [Rat.mkRat_eq_div]
    norm_num
  · intro caps cfg now st content c s hbc hle
    simp only [assignCategory, hbc]
    rw [if_pos hle]
  · intro caps cfg now st content c' hnot hfind hne
    have hchosen :
        (match bestCategory caps st content with
          | some (c, s) => if cfg.categoryThreshold ≤ s then some c.path else none
          | none => none) = (none : Option String) := by
      rcases hnot with h | ⟨c, s, heq, hlt⟩
      · rw [h]
      · rw [heq]
        exact if_neg (not_le.mpr hlt)
    simp only [assignCategory, hchosen, ensureCategory, hfind]
    rw [if_neg hne]
  · intro caps cfg now st content hnot hfind
    have hchosen :
        (match bestCategory caps st content with
          | some (c, s) => if cfg.categoryThreshold ≤ s then some c.path else none
          | none => none) = (none : Option String) := by
      rcases hnot with h | ⟨c, s, heq, hlt⟩
      · rw [h]
      · rw [heq]
        exact if_neg (not_le.mpr hlt)
    simp only [assignCategory, hchosen, ensureCategory, hfind]

/-- Witness for C7: a concrete path collision with different lineage yields
the naming-conflict error. -/
theorem category_assignment_threshold_and_conflict_witness :
    assignCategory exCapsConflict defaultPipeline 0 exStoreConflict "x"
      = .error .namingConflict :=
  category_assignment_threshold_and_conflict.2.2.1 exCapsConflict defaultPipeline
    0 exStoreConflict "x" (exCat 2 "a/b" (some 99) none)
    (Or.inr ⟨exCat 1 "a" none none, 0, by rfl, by decide⟩)
    (by decide) (by decide)

end EternalMemory

namespace EternalMemory

/-- Membership in a descending insertion. -/
theorem mem_insertDesc (score : MemoryItem → ℚ) (x a : MemoryItem)
    (l : List MemoryItem) :
    a ∈ insertDesc score x l ↔ a = x ∨ a ∈ l := by
  induction l with
  | nil => simp [insertDesc]
  | cons y ys ih =>
      simp only [insertDesc]
      by_cases h : score y ≤ score x
      · rw [if_pos h]
        simp [List.mem_cons]
      · rw [if_neg h]
        simp only [List.mem_cons, ih]
        tauto

/-- Ranking preserves membership. -/
theorem mem_rankBy (score : MemoryItem → ℚ) (a : MemoryItem)
    (l : List MemoryItem) : a ∈ rankBy score l ↔ a ∈ l := by
  induction l with
  | nil => simp [rankBy]
  | cons y ys ih =>
      simp only [rankBy, mem_insertDesc, ih, List.mem_cons]

/-- The RRF contribution of a ranked list is `1/(k + rank)` exactly on its
members. -/
theorem rrfContribution_eq (k : ℚ) (l : List MemoryItem) (x : MemoryItem) :
    rrfContribution k l x
      = if x ∈ l then 1 / (k + (rankIn l x : ℚ)) else 0 := by
  unfold rrfContribution rankIn
  cases h : l.indexOf? x with
  | none =>
      have hx : x ∉ l := by
        intro hmem
        have := (List.indexOf?_eq_none_iff).mp h x hmem
        simp at this
      rw [if_neg hx]
  | some i =>
      have hx : x ∈ l := by
        by_contra hx
        have hnone : l.indexOf? x = none := by
          rw [List.indexOf?_eq_none_iff]
          intro y hy hbeq
          exact hx (beq_iff_eq.mp hbeq ▸ hy)
        rw [hnone] at h
        cases h
      rw [if_pos hx]
      simp [h]

/-- Members of the threshold-filtered candidate pool are active. -/
theorem active_of_mem_kept (caps : RetrievalCaps) (cfg : RetrievalConfig)
    (sc : ScoringSettings) (st : Store) (q : String) (x : MemoryItem)
    (h : x ∈ keptCandidates caps cfg sc st q) : x.active = true := by
  have h1 : x ∈ topFused caps cfg st q := List.mem_of_mem_filter h
  have h2 : x ∈ fusedSorted caps cfg st q := List.mem_of_mem_take h1
  have h3 : x ∈ (vecRanked caps st q ++ keyRanked caps st q).dedup := by
    simpa [fusedSorted, mem_rankBy] using h2
  have h4 : x ∈ vecRanked caps st q ++ keyRanked caps st q :=
    List.mem_dedup.mp h3
  have h5 : x ∈ activeItems st := by
    rcases List.mem_append.mp h4 with h | h
    · simpa [vecRanked, mem_rankBy] using h
    · simpa [keyRanked, mem_rankBy] using h
  exact List.of_mem_filter h5

/-- Members of the fast-mode result are active. -/
theorem active_of_mem_fastItems (caps : RetrievalCaps) (cfg : RetrievalConfig)
    (sc : ScoringSettings) (now : Nat) (st : Store) (q : String)
    (x : MemoryItem) (h : x ∈ fastItems caps cfg sc now st q) :
    x.active = true := by
  have h1 : x ∈ keptCandidates caps cfg sc st q := by
    have := List.mem_of_mem_take h
    rwa [mem_rankBy] at this
  exact active_of_mem_kept caps cfg sc st q x h1

/-- Members of the deep-mode recall are active. -/
theorem active_of_mem_deepItems (caps : RetrievalCaps) (cfg : RetrievalConfig)
    (sc : ScoringSettings) (now : Nat) (st : Store) (q : String)
    (x : MemoryItem) (h : x ∈ deepItems caps cfg sc now st q) :
    x.active = true := by
  have h1 : x ∈ keptCandidates caps cfg sc st q := by
    have := List.mem_of_mem_take h
    rwa [mem_rankBy] at this
  exact active_of_mem_kept caps cfg sc st q x h1

/-- C4: fast-mode retrieval fuses the vector and keyword rankings by
Reciprocal Rank Fusion — each candidate's fused score is the sum over the
lists it appears in of `1/(k + rank)` with k defaulting to 60 — keeps at
most the top 20 fused candidates (default) for re-scoring, returns at most
5, and every returned candidate's normalized fused relevance meets the
minimum threshold (default 0.3) applied before the weighted scoring step. -/
theorem fast_mode_rrf_fusion :
    (defaultRetrieval.rrfK = 60 ∧ defaultRetrieval.fuseLimit = 20
      ∧ defaultRetrieval.fastReturnLimit = 5
      ∧ defaultScoring.minRelevanceThreshold = 3/10)
    ∧ (∀ (k : ℚ) (v kl : List MemoryItem) (x : MemoryItem),
        rrfScore k v kl x = specRRF k [v, kl] x)
    ∧ (∀ (caps : RetrievalCaps) (cfg : RetrievalConfig) (sc : ScoringSettings)
        (st : Store) (q : String),
        (keptCandidates caps cfg sc st q).length ≤ cfg.fuseLimit)
    ∧ (∀ (caps : RetrievalCaps) (sc : ScoringSettings) (now : Nat) (st : Store)
        (q : String),
        (fastItems caps defaultRetrieval sc now st q).length ≤ 5)
    ∧ (∀ (caps : RetrievalCaps) (cfg : RetrievalConfig) (sc : ScoringSettings)
        (now : Nat) (st : Store) (q : String),
        (fastItems caps cfg sc now st q).all
          (fun x => decide
            (sc.minRelevanceThreshold ≤ normRelevance caps cfg st q x)) = true) := by
  refine ⟨⟨rfl, rfl, rfl, ?_⟩, ?_, ?_, ?_, ?_⟩
  · show (mkRat 3 10 : ℚ) = 3/10
    rw [Rat.mkRat_eq_div]
    norm_num
  · intro k v kl x
    simp only [specRRF, List.map_cons, List.map_nil, List.sum_cons, List.sum_nil,
      add_zero, rrfScore, rrfContribution_eq]
  · intro caps cfg sc st q
    exact le_trans (List.length_filter_le _ _) (List.length_take_le _ _)
  · intro caps sc now st q
    exact List.length_take_le _ _
  · intro caps cfg sc now st q
    rw [List.all_eq_true]
    intro x hx
    have h1 : x ∈ keptCandidates caps cfg sc st q := by
      have := List.mem_of_mem_take hx
      rwa [mem_rankBy] at this
    have h2 : x ∈ (topFused caps cfg st q).filter
        (fun y => decide (sc.minRelevanceThreshold ≤ normRelevance caps cfg st q y)) := h1
    simpa using List.of_mem_filter h2

/-- C6: retrieval, in fast and deep mode alike, returns only items whose
active flag is true — superseded (inactive) items are excluded while
remaining stored. -/
theorem retrieval_returns_only_active :
    ∀ (caps : RetrievalCaps) (cfg : RetrievalConfig) (sc : ScoringSettings)
      (now : Nat) (st : Store) (query : String) (ctx : Option String)
      (mode : RetrievalMode),
      ((retrieve caps cfg sc now st query ctx mode).1.items).all
        (fun i => i.active) = true := by
  intro caps cfg sc now st query ctx mode
  rw [List.all_eq_true]
  intro i hi
  cases mode with
  | fast =>
      cases ctx with
      | none =>
          exact active_of_mem_fastItems caps cfg sc now st query i
            (by simpa [retrieve] using hi)
      | some c =>
          exact active_of_mem_fastItems caps cfg sc now st (caps.rewrite query c) i
            (by simpa [retrieve] using hi)
  | deep =>
      cases ctx with
      | none =>
          exact active_of_mem_deepItems caps cfg sc now st query i
            (by simpa [retrieve] using hi)
      | some c =>
          exact active_of_mem_deepItems caps cfg sc now st (caps.rewrite query c) i
            (by simpa [retrieve] using hi)

end EternalMemory

namespace EternalMemory

/-- Refreshing a category's summary twice against the same items gives the
same category as refreshing once. -/
theorem refreshCat_idem (caps : Capabilities) (items : List MemoryItem)
    (c : Category) :
    refreshCat caps items (refreshCat caps items c) = refreshCat caps items c := by
  by_cases h : 0 < (items.filter (fun it => it.categoryPath == c.path)).length
  · simp [refreshCat, h]
  · simp [refreshCat, h]

/-- Refreshing a summary never changes the category's identifier. -/
theorem refreshCat_id (caps : Capabilities) (items : List MemoryItem)
    (c : Category) : (refreshCat caps items c).id = c.id := by
  by_cases h : 0 < (items.filter (fun it => it.categoryPath == c.path)).length
  · simp [refreshCat, h]
  · simp [refreshCat, h]

/-- Counterexample for C9: the summary-refresh step of the consolidation
code overwrites the stored summary of a category none of whose items were
touched since its last summary (taken here at time 10): the stored summary
changes even though the category is untouched, contradicting the claim that
only touched categories are overwritten. -/
theorem summary_refresh_overwrites_untouched :
    specUntouchedSince exStoreStale (exCat 0 "p" none (some "old summary")) 10
    ∧ (exCat 0 "p" none (some "old summary")) ∈ exStoreStale.categories
    ∧ 0 < (itemsByPath exStoreStale "p").length
    ∧ categorySummary (summaryRefresh exCapsEmpty exStoreStale) "p"
        ≠ categorySummary exStoreStale "p" := by
  refine ⟨?_, ?_, ?_, ?_⟩
  · show ∀ it ∈ itemsByPath exStoreStale (exCat 0 "p" none (some "old summary")).path,
      it.createdAt ≤ 10 ∧ it.lastAccessed ≤ 10
    decide
  · decide
  · decide
  · decide

/-- C9 (amended): the summary-refresh step overwrites the stored summary of
every category with at least one member item, recomputing it from those
items regardless of whether they were touched since the last summary; with
summarization modelled as a function of the member items the step is
idempotent — running it again with no item changes yields identical
summaries. -/
theorem summary_refresh_unconditional_idempotent :
    (∀ (caps : Capabilities) (st : Store),
        summaryRefresh caps (summaryRefresh caps st) = summaryRefresh caps st)
    ∧ (∀ (caps : Capabilities) (st : Store) (c : Category),
        c ∈ st.categories → 0 < (itemsByPath st c.path).length →
        { c with summary := some (caps.summarize (itemsByPath st c.path)) }
          ∈ (summaryRefresh caps st).categories) := by
  constructor
  · intro caps st
    show ({ { st with categories := st.categories.map (refreshCat caps st.items) } with
        categories := (st.categories.map (refreshCat caps st.items)).map
          (refreshCat caps ({ st with
            categories := st.categories.map (refreshCat caps st.items) } : Store).items) }
      : Store) = _
    refine congrArg (fun cats => { st with categories := cats }) ?_
    rw [List.map_map]
    exact List.map_congr_left fun c _ => refreshCat_idem caps st.items c
  · intro caps st c hc hlen
    have heq : refreshCat caps st.items c
        = { c with summary := some (caps.summarize (itemsByPath st c.path)) } := by
      simp only [itemsByPath] at hlen
      simp [refreshCat, hlen, itemsByPath]
    have hmem : refreshCat caps st.items c
        ∈ (summaryRefresh caps st).categories :=
      List.mem_map_of_mem (refreshCat caps st.items) hc
    rwa [heq] at hmem

/-- Witness for C9 (amended): applied to the concrete untouched store, the
refreshed summary for the category is the summarization of its one item. -/
theorem summary_refresh_unconditional_idempotent_witness :
    { (exCat 0 "p" none (some "old summary")) with
        summary := some (exCapsEmpty.summarize (itemsByPath exStoreStale
          (exCat 0 "p" none (some "old summary")).path)) }
      ∈ (summaryRefresh exCapsEmpty exStoreStale).categories :=
  summary_refresh_unconditional_idempotent.2 exCapsEmpty exStoreStale
    (exCat 0 "p" none (some "old summary")) (by decide) (by decide)

end EternalMemory

namespace EternalMemory

/-- Identifier preservation is reflexive. -/
theorem idsPreserved_refl (st : Store) : IdsPreserved st st :=
  ⟨fun _ hi => hi, fun _ hi => hi, fun _ hi => hi⟩

/-- Identifier preservation is transitive. -/
theorem idsPreserved_trans {s₁ s₂ s₃ : Store} (h₁ : IdsPreserved s₁ s₂)
    (h₂ : IdsPreserved s₂ s₃) : IdsPreserved s₁ s₃ :=
  ⟨fun i hi => h₂.1 i (h₁.1 i hi), fun i hi => h₂.2.1 i (h₁.2.1 i hi),
   fun i hi => h₂.2.2 i (h₁.2.2 i hi)⟩

/-- A fold whose every step preserves identifiers preserves identifiers. -/
theorem foldl_idsPreserved {β : Type} (step : Store → β → Store)
    (h : ∀ acc b, IdsPreserved acc (step acc b)) (l : List β) :
    ∀ st : Store, IdsPreserved st (l.foldl step st) := by
  induction l with
  | nil => intro st; exact idsPreserved_refl st
  | cons b bs ih =>
      intro st
      exact idsPreserved_trans (h st b) (ih (step st b))

/-- One split-assignment step preserves all stored identifiers. -/
theorem splitAssign_idsPreserved (now : Nat) (c : Category) (acc : Store)
    (cl : String × List Nat) : IdsPreserved acc (splitAssign now c acc cl) := by
  simp only [splitAssign]
  split
  · refine ⟨?_, fun i hi => hi, fun i hi => hi⟩
    intro i hi
    simp only [itemIds] at hi ⊢
    rw [map_comp_eq_map (fun i => i.id)
      (fun it => if it.id ∈ cl.2 then { it with categoryPath := c.path ++ "/" ++ cl.1 } else it)
      acc.items (fun it => by by_cases h : it.id ∈ cl.2 <;> simp [h])]
    exact hi
  · refine ⟨?_, ?_, fun i hi => hi⟩
    · intro i hi
      simp only [itemIds] at hi ⊢
      rw [map_comp_eq_map (fun i => i.id)
        (fun it => if it.id ∈ cl.2 then { it with categoryPath := c.path ++ "/" ++ cl.1 } else it)
        acc.items (fun it => by by_cases h : it.id ∈ cl.2 <;> simp [h])]
      exact hi
    · intro i hi
      simp only [categoryIds, List.map_append] at hi ⊢
      exact List.mem_append.mpr (Or.inl hi)

/-- Splitting one category preserves all stored identifiers. -/
theorem splitCategory_idsPreserved (caps : Capabilities) (now : Nat)
    (st : Store) (c : Category) : IdsPreserved st (splitCategory caps now st c) :=
  foldl_idsPreserved (splitAssign now c)
    (fun acc cl => splitAssign_idsPreserved now c acc cl) _ st

/-- The summary-refresh step preserves all stored identifiers. -/
theorem summaryRefresh_idsPreserved (caps : Capabilities) (st : Store) :
    IdsPreserved st (summaryRefresh caps st) := by
  refine ⟨fun i hi => hi, ?_, fun i hi => hi⟩
  intro i hi
  simp only [categoryIds, summaryRefresh] at hi ⊢
  rw [map_comp_eq_map (fun c => c.id) (refreshCat caps st.items) st.categories
    (refreshCat_id caps st.items)]
  exact hi

/-- Consolidation preserves all stored identifiers. -/
theorem consolidate_idsPreserved (caps : Capabilities) (cfg : PipelineConfig)
    (now : Nat) (st : Store) : IdsPreserved st (consolidate caps cfg now st) := by
  refine idsPreserved_trans (summaryRefresh_idsPreserved caps st)
    (foldl_idsPreserved _ ?_ st.categories (summaryRefresh caps st))
  intro acc c
  by_cases h : categoryTooLarge cfg acc c
  · simp only [h, if_true]
    exact splitCategory_idsPreserved caps now acc c
  · simp only [h, if_false]
    exact idsPreserved_refl acc

/-- Committing one candidate fact preserves all stored identifiers. -/
theorem commitFact_idsPreserved (caps : Capabilities) (cfg : PipelineConfig)
    (now : Nat) (rid : Option Nat) (st : Store) (path : String)
    (f : CandidateFact) (st₂ : Store) (o : Option MemoryItem)
    (h : commitFact caps cfg now rid st path f = (st₂, o)) :
    IdsPreserved st st₂ := by
  simp only [commitFact] at h
  split at h
  · split at h
    · -- equivalent: targeted update only
      rename_i old heq1 jd heq2
      rcases h with ⟨rfl, rfl⟩
      refine ⟨?_, fun i hi => hi, fun i hi => hi⟩
      intro i hi
      simp only [itemIds] at hi ⊢
      rw [map_comp_eq_map (fun i => i.id) _ st.items
        (fun it => by by_cases hh : it.id = old.id <;> simp [hh])]
      exact hi
    · -- supersede: targeted update plus append
      rename_i old heq1 jd heq2
      rcases h with ⟨rfl, rfl⟩
      refine ⟨?_, fun i hi => hi, fun i hi => hi⟩
      intro i hi
      simp only [itemIds, List.map_append] at hi ⊢
      refine List.mem_append.mpr (Or.inl ?_)
      rw [map_comp_eq_map (fun i => i.id) _ st.items
        (fun it => by by_cases hh : it.id = old.id <;> simp [hh])]
      exact hi
    · -- unrelated: append
      rcases h with ⟨rfl, rfl⟩
      refine ⟨?_, fun i hi => hi, fun i hi => hi⟩
      intro i hi
      simp only [itemIds, List.map_append] at hi ⊢
      exact List.mem_append.mpr (Or.inl hi)
  · -- no near item: append
    rcases h with ⟨rfl, rfl⟩
    refine ⟨?_, fun i hi => hi, fun i hi => hi⟩
    intro i hi
    simp only [itemIds, List.map_append] at hi ⊢
    exact List.mem_append.mpr (Or.inl hi)

/-- Ingesting one candidate fact preserves all stored identifiers. -/
theorem ingestFact_idsPreserved (caps : Capabilities) (cfg : PipelineConfig)
    (now : Nat) (rid : Option Nat) (st : Store) (f : CandidateFact)
    (st₂ : Store) (o : Option MemoryItem)
    (h : ingestFact caps cfg now rid st f = .ok (st₂, o)) :
    IdsPreserved st st₂ := by
  simp only [ingestFact] at h
  split at h
  · cases h
  · rename_i st₁ path heq
    have h' := Except.ok.inj h
    have hassign := assignCategory_ok caps cfg now st f.content st₁ path heq
    have h1 : IdsPreserved st st₁ := by
      refine ⟨?_, hassign.2.2.1, ?_⟩
      · intro i hi
        simp only [itemIds] at hi ⊢
        rw [hassign.1]
        exact hi
      · intro i hi
        simp only [resourceIds] at hi ⊢
        rw [hassign.2.1]
        exact hi
    exact idsPreserved_trans h1
      (commitFact_idsPreserved caps cfg now rid st₁ path f st₂ o h')

/-- Ingesting a list of candidate facts preserves all stored identifiers. -/
theorem ingestFacts_idsPreserved (caps : Capabilities) (cfg : PipelineConfig)
    (now : Nat) (rid : Option Nat) :
    ∀ (fs : List CandidateFact) (st st' : Store) (its : List MemoryItem),
      ingestFacts caps cfg now rid st fs = .ok (st', its) →
      IdsPreserved st st' := by
  intro fs
  induction fs with
  | nil =>
      intro st st' its h
      simp only [ingestFacts] at h
      rcases h with ⟨rfl, rfl⟩
      exact idsPreserved_refl st
  | cons f fs ih =>
      intro st st' its h
      simp only [ingestFacts] at h
      split at h
      · cases h
      · rename_i st₁ created heq₁
        split at h
        · cases h
        · rename_i st₂ items heq₂
          rcases h with ⟨rfl, rfl⟩
          exact idsPreserved_trans
            (ingestFact_idsPreserved caps cfg now rid st f st₁ created heq₁)
            (ih st₁ _ _ heq₂)

/-- A successful ingestion preserves all stored identifiers. -/
theorem ingest_idsPreserved (caps : Capabilities) (cfg : PipelineConfig)
    (now : Nat) (st : Store) (text : String) (st' : Store)
    (its : List MemoryItem) (h : ingest caps cfg now st text = .ok (st', its)) :
    IdsPreserved st st' := by
  simp only [ingest] at h
  split at h
  · rcases h with ⟨rfl, rfl⟩
    exact idsPreserved_refl st
  · rename_i f fs heq
    have h2 := ingestFacts_idsPreserved caps cfg now _ _ _ _ _ h
    refine idsPreserved_trans ?_ h2
    refine ⟨fun i hi => hi, fun i hi => hi, ?_⟩
    intro i hi
    simp only [resourceIds, List.map_append] at hi ⊢
    exact List.mem_append.mpr (Or.inl hi)

/-- Counterexample for C1: the `memory_cleanup` scheduled background job
deletes a stored MemoryItem — here item 0, not accessed for more than 30
days and of importance 0.2 < 0.3, is gone from the store after the job runs,
so it is not the case that every automated operation leaves the stored
identifiers a superset of what they were. -/
theorem memory_cleanup_deletes_item :
    0 ∈ itemIds exStoreClean
    ∧ 0 ∉ itemIds (runJob exCapsEmpty defaultPipeline 721
        JobType.memoryCleanup exStoreClean) := by
  constructor
  · decide
  · decide

/-- Mapping a last-access bump over a set of returned identifiers never
changes the stored item identifiers. -/
theorem bumpAccessed_ids (l : List MemoryItem) (R : List Nat) (now : Nat) :
    (l.map (fun it =>
        if it.id ∈ R then { it with lastAccessed := now } else it)).map
      (fun i => i.id) = l.map (fun i => i.id) :=
  map_comp_eq_map (fun i => i.id) _ l
    (fun it => by by_cases hh : it.id ∈ R <;> simp [hh])

/-- Retrieval's write-through side effect (the `last_accessed` bump on
returned items) preserves all stored identifiers. -/
theorem retrieve_idsPreserved (caps : RetrievalCaps) (cfg : RetrievalConfig)
    (sc : ScoringSettings) (now : Nat) (st : Store) (query : String)
    (ctx : Option String) (mode : RetrievalMode) :
    IdsPreserved st (retrieve caps cfg sc now st query ctx mode).2 := by
  refine ⟨?_, fun i hi => hi, fun i hi => hi⟩
  intro i hi
  simp only [itemIds, retrieve] at hi ⊢
  rw [bumpAccessed_ids]
  exact hi

/-- C1 (amended): ingestion, retrieval, consolidation, and every scheduled
background job other than `memory_cleanup` never delete a Resource,
Category, or MemoryItem — the stored identifiers afterwards are a superset
of those before; forgetting there is expressed as deactivation plus
summarization. The optional `memory_cleanup` job is the exception the code
provides. -/
theorem eternal_retention_except_cleanup :
    (∀ (caps : Capabilities) (cfg : PipelineConfig) (now : Nat) (st : Store)
       (text : String) (st' : Store) (its : List MemoryItem),
       ingest caps cfg now st text = .ok (st', its) → IdsPreserved st st')
    ∧ (∀ (caps : RetrievalCaps) (rcfg : RetrievalConfig) (sc : ScoringSettings)
       (now : Nat) (st : Store) (query : String) (ctx : Option String)
       (mode : RetrievalMode),
       IdsPreserved st (retrieve caps rcfg sc now st query ctx mode).2)
    ∧ (∀ (caps : Capabilities) (cfg : PipelineConfig) (now : Nat) (st : Store),
       IdsPreserved st (consolidate caps cfg now st))
    ∧ (∀ (caps : Capabilities) (cfg : PipelineConfig) (now : Nat) (j : JobType)
       (st : Store), j ≠ JobType.memoryCleanup →
       IdsPreserved st (runJob caps cfg now j st)) := by
  refine ⟨fun caps cfg now st text st' its h =>
    ingest_idsPreserved caps cfg now st text st' its h,
    fun caps rcfg sc now st query ctx mode =>
      retrieve_idsPreserved caps rcfg sc now st query ctx mode,
    fun caps cfg now st => consolidate_idsPreserved caps cfg now st, ?_⟩
  intro caps cfg now j st hj
  cases j with
  | dailyReflection =>
      simp only [runJob, reflectionJob]
      split
      · rename_i st' its heq
        exact ingest_idsPreserved caps cfg now st _ st' its heq
      · exact idsPreserved_refl st
  | weeklySummary =>
      simp only [runJob, reflectionJob]
      split
      · rename_i st' its heq
        exact ingest_idsPreserved caps cfg now st _ st' its heq
      · exact idsPreserved_refl st
  | maintenance => exact consolidate_idsPreserved caps cfg now st
  | vaultBackup => exact idsPreserved_refl st
  | memoryCleanup => exact absurd rfl hj
  | statsSnapshot => exact idsPreserved_refl st
  | embeddingRefresh => exact idsPreserved_refl st

/-- Witness for C1 (amended): a concrete ingestion that extracts nothing
preserves the concrete store's identifiers. -/
theorem eternal_retention_except_cleanup_witness :
    IdsPreserved exStoreClean exStoreClean :=
  eternal_retention_except_cleanup.1 exCapsEmpty defaultPipeline 0 exStoreClean
    "chit-chat" exStoreClean [] (by rfl)

end EternalMemory
